import Mathlib

/-!
# Verification of the `streamDraft` stream decoder

Shallow embedding of `apps/web/lib/streamDraft.ts` (reached through
`apps/web/app/page.tsx`).  The decoder consumes a chunked response body,
incrementally decodes UTF-8 bytes, reassembles frames delimited by `"\n\n"`,
and dispatches `data:`-prefixed payloads to a token callback, treating a
payload beginning with `429` as a quota error.

Modelling conventions:
* JS strings are modelled as `List Char` (Unicode scalar values); all string
  operations used by the source (`trim`, `startsWith`, `slice`, `split`) act
  on ASCII/BMP text where scalar values and UTF-16 code units coincide.
* The response body is a list of byte chunks followed by a terminal event:
  `none` models a read that resolves with `done = true`, `some m` models a
  read that rejects with an error whose `.message` is `m`.
* Callback invocations are reified as an event list (`Ev`), in dispatch
  order; the returned cancel function is reified as a `Handle` value.
-/

/-- Whitespace as stripped by JavaScript `String.prototype.trim`:
ECMAScript WhiteSpace (TAB, VT, FF, SP, NBSP, ZWNBSP and the Zs category)
plus LineTerminator (LF, CR, LS, PS). -/
def isJsWS (c : Char) : Bool :=
  c = ' ' || c = '\t' || c = '\n' || c = '\r' ||
  c = Char.ofNat 0x0B || c = Char.ofNat 0x0C ||
  c = Char.ofNat 0xA0 || c = Char.ofNat 0x1680 ||
  (0x2000 ≤ c.toNat && c.toNat ≤ 0x200A) ||
  c = Char.ofNat 0x2028 || c = Char.ofNat 0x2029 ||
  c = Char.ofNat 0x202F || c = Char.ofNat 0x205F ||
  c = Char.ofNat 0x3000 || c = Char.ofNat 0xFEFF

/-- `s.trim()` — drop JS whitespace from both ends. -/
def trimJS (s : List Char) : List Char :=
  ((s.dropWhile isJsWS).reverse.dropWhile isJsWS).reverse

/-- The literal `'data:'` prefix tested by `line.startsWith('data:')`. -/
def dataTag : List Char := ['d', 'a', 't', 'a', ':']

/-- The literal `'429'` sentinel tested by `payload.startsWith('429')`. -/
def quotaTag : List Char := ['4', '2', '9']

/-- The fixed message passed to `onError` on the quota path. -/
def quotaMsg : String := "Azure quota exceeded (TPS = 0)."

/-! ## Incremental UTF-8 decoding (`TextDecoder` with `stream: true`)

The WHATWG `TextDecoder` is a byte-at-a-time state machine whose state is
the (still incomplete) prefix of the current multi-byte sequence.  We model
the state as that pending byte list.  The model is exact on valid UTF-8
input; on invalid input it emits U+FFFD in the spirit of the standard's
replacement behaviour (the claims only exercise valid input). -/

/-- Total length of the UTF-8 sequence announced by a lead byte
(0 for bytes that cannot start a sequence). -/
def seqLen (b : Nat) : Nat :=
  if b < 0x80 then 1
  else if b < 0xC0 then 0
  else if b < 0xE0 then 2
  else if b < 0xF0 then 3
  else if b < 0xF8 then 4
  else 0

/-- Is `b` a UTF-8 continuation byte (`10xxxxxx`)? -/
def contByte (b : Nat) : Bool := 0x80 ≤ b && b < 0xC0

/-- Payload bits of a lead byte. -/
def leadVal (b : Nat) : Nat :=
  if b < 0x80 then b
  else if b < 0xE0 then b % 0x20
  else if b < 0xF0 then b % 0x10
  else b % 0x08

/-- Code point assembled from a complete UTF-8 sequence. -/
def accSeq : List Nat → Nat
  | [] => 0
  | b :: rest => rest.foldl (fun a c => a * 64 + c % 64) (leadVal b)

/-- U+FFFD REPLACEMENT CHARACTER. -/
def repChar : Char := Char.ofNat 0xFFFD

/-- One step of the UTF-8 streaming decoder: state is the pending
incomplete sequence, input one byte, output the pending state and the
characters produced by this byte. -/
def decStep (pend : List Nat) (b : Nat) : List Nat × List Char :=
  match pend with
  | [] =>
    if b < 0x80 then ([], [Char.ofNat b])
    else if 2 ≤ seqLen b then ([b], [])
    else ([], [repChar])
  | p :: _ =>
    if contByte b then
      let s := pend ++ [b]
      if s.length = seqLen p then ([], [Char.ofNat (accSeq s)]) else (s, [])
    else
      if b < 0x80 then ([], [repChar, Char.ofNat b])
      else if 2 ≤ seqLen b then ([b], [repChar])
      else ([], [repChar, repChar])

/-- Run the decoder over a byte list, threading the pending state and
accumulating output. -/
def decRun (st : List Nat × List Char) (bs : List Nat) : List Nat × List Char :=
  bs.foldl (fun acc b => ((decStep acc.1 b).1, acc.2 ++ (decStep acc.1 b).2)) st

/-- `decoder.decode(value, { stream: true })`: decode one chunk starting
from pending state `p`, returning the new pending state and the decoded
text of this chunk. -/
def decodeChunk (p : List Nat) (bs : List Nat) : List Nat × List Char :=
  decRun (p, []) bs

/-- UTF-8 encoding of one scalar value (used to build concrete byte
streams for the theorems' inputs). -/
def encodeChar (c : Char) : List Nat :=
  let n := c.toNat
  if n < 0x80 then [n]
  else if n < 0x800 then [0xC0 + n / 0x40, 0x80 + n % 0x40]
  else if n < 0x10000 then
    [0xE0 + n / 0x1000, 0x80 + (n / 0x40) % 0x40, 0x80 + n % 0x40]
  else
    [0xF0 + n / 0x40000, 0x80 + (n / 0x1000) % 0x40,
     0x80 + (n / 0x40) % 0x40, 0x80 + n % 0x40]

/-- UTF-8 encoding of a text. -/
def utf8Encode (s : List Char) : List Nat := (s.map encodeChar).flatten

/-- Bytes of a Lean string literal, UTF-8 encoded. -/
def strBytes (s : String) : List Nat := utf8Encode s.data

/-! ## Frame reassembly: `buffer.split('\n\n')` and `parts.pop() || ''` -/

/-- JavaScript `s.split('\n\n')`: split at every occurrence of the
delimiter, scanning left to right, non-overlapping.  Always returns a
non-empty list; the last element is the text after the final delimiter. -/
def splitNN : List Char → List (List Char)
  | [] => [[]]
  | [c] => [[c]]
  | c :: d :: rest =>
    if c = '\n' ∧ d = '\n' then [] :: splitNN rest
    else
      match splitNN (d :: rest) with
      | [] => [[c]]
      | h :: t => (c :: h) :: t

/-- `parts.pop() || ''`: the last element of the split (the empty string
when the array is empty — unreachable for `split` results). -/
def lastD : List (List Char) → List Char
  | [] => []
  | [x] => x
  | _ :: x :: rest => lastD (x :: rest)

/-- One reassembly step of the source:
`const parts = buffer.split('\n\n'); buffer = parts.pop() || '';`
returning the complete frames (all parts but the last) and the new
buffer (the trailing part, not yet terminated by a delimiter). -/
def extractFrames (s : List Char) : List (List Char) × List Char :=
  ((splitNN s).dropLast, lastD (splitNN s))

/-! ## Event interpretation and the read loop -/

/-- A callback invocation observed by the caller. -/
inductive Ev where
  | token (payload : List Char)
  | error (msg : String)
deriving DecidableEq

/-- How the read loop terminated. -/
inductive Outcome where
  /-- `reader.read()` resolved with `done = true` and the loop returned. -/
  | completed
  /-- the `429` sentinel was seen: `reader.cancel()` was requested and the
  loop returned without touching later frames. -/
  | quotaCancelled
  /-- a read rejected.  The rejection escapes the `try`/`catch` of
  `streamDraft` because the recursive `read()` is invoked without `await`
  (fire-and-forget), so no callback observes it: it surfaces only as an
  unhandled promise rejection carrying this message. -/
  | rejected (msg : String)
deriving DecidableEq

/-- Terminal outcome of draining the body without hitting the sentinel. -/
def termOutcome : Option String → Outcome
  | none => Outcome.completed
  | some m => Outcome.rejected m

/-- The `for (const part of parts)` body: trim each frame, skip frames
without the `data:` prefix, strip the prefix and trim to get the payload;
a payload starting with `429` emits the quota error and stops (second
component `true`), otherwise the payload is emitted as a token. -/
def processFrames : List (List Char) → List Ev × Bool
  | [] => ([], false)
  | f :: fs =>
    let line := trimJS f
    if dataTag.isPrefixOf line then
      let payload := trimJS (line.drop 5)
      if quotaTag.isPrefixOf payload then ([Ev.error quotaMsg], true)
      else ((Ev.token payload) :: (processFrames fs).1, (processFrames fs).2)
    else processFrames fs

/-- The recursive `read()` loop: await one chunk, decode it into the
buffer, split off complete frames, dispatch them, and recurse — stopping
early when the quota sentinel fired.  `term` is what the read after the
last chunk does (`none`: resolves done, `some m`: rejects). -/
def readLoop : List Nat → List Char → List (List Nat) → Option String → List Ev × Outcome
  | _, _, [], term => ([], termOutcome term)
  | p, buf, c :: rest, term =>
    let d := decodeChunk p c
    let e := extractFrames (buf ++ d.2)
    let pr := processFrames e.1
    if pr.2 then (pr.1, Outcome.quotaCancelled)
    else (pr.1 ++ (readLoop d.1 e.2 rest term).1, (readLoop d.1 e.2 rest term).2)

/-! ## The session entry point `streamDraft` -/

/-- The cancel function handed back to the caller: either the no-op
`() => {}` returned on the failure paths, or `() => reader.cancel()`. -/
inductive Handle where
  | noop
  | cancelReader
deriving DecidableEq

/-- The response body: its chunk sequence and its terminal read event. -/
structure BodyStream where
  chunks : List (List Nat)
  term : Option String

/-- Result of awaiting `fetch`: either the promise rejected with an error
whose message is `msg`, or a response with a status and a readable body. -/
inductive FetchRes where
  | netError (msg : String)
  | ok (status : Nat) (body : BodyStream)

/-- `res.ok`: status in the inclusive range 200–299. -/
def statusOkB (s : Nat) : Bool := 200 ≤ s && s < 300

/-- `streamDraft`, with the callback invocations reified as an event list
and the returned cancel function as a `Handle`:
* a rejected `fetch` is caught, reported through `onError`, and the no-op
  handle is returned;
* `!res.ok` reports `HTTP <status>` through `onError` and returns the
  no-op handle without entering the read loop;
* otherwise the read loop runs (fire-and-forget) and the handle wrapping
  `reader.cancel()` is returned. -/
def streamDraft : FetchRes → List Ev × Handle
  | FetchRes.netError m => ([Ev.error m], Handle.noop)
  | FetchRes.ok s body =>
    if statusOkB s then
      ((readLoop [] [] body.chunks body.term).1, Handle.cancelReader)
    else ([Ev.error ("HTTP " ++ toString s)], Handle.noop)

/-- State of the WHATWG `ReadableStreamDefaultReader` underlying the
session, as observable through further reads. -/
inductive ReaderState where
  | reading
  | closed
  | cancelled
deriving DecidableEq

/-- `reader.cancel()` per the WHATWG Streams standard: cancelling an
active reader moves the stream to the cancelled (errored-for-reads) state;
on an already closed or cancelled stream it is a no-op. -/
def readerCancel : ReaderState → ReaderState
  | ReaderState.reading => ReaderState.cancelled
  | ReaderState.closed => ReaderState.closed
  | ReaderState.cancelled => ReaderState.cancelled

/-- Invoke a returned handle: the no-op handle leaves the reader alone,
the real handle runs `reader.cancel()`. -/
def runHandle : Handle → ReaderState → ReaderState
  | Handle.noop, st => st
  | Handle.cancelReader, st => readerCancel st

/-- Did the session fail before the read loop (rejected `fetch` or
non-success status)?  On exactly these paths the source returns the
no-op cancel function `() => {}`. -/
def initFailed : FetchRes → Bool
  | FetchRes.netError _ => true
  | FetchRes.ok s _ => !statusOkB s

/-- Is a frame interpreted as the quota sentinel: it carries the `data:`
prefix and its payload begins with `429`? -/
def isQuotaFrame (f : List Char) : Bool :=
  dataTag.isPrefixOf (trimJS f) && quotaTag.isPrefixOf (trimJS ((trimJS f).drop 5))

/-- Is a frame free of the `"\n\n"` delimiter?  (Invariantly true of the
reassembly buffer between reads.) -/
def delimFree : List Char → Bool
  | c :: d :: rest => !(c = '\n' && d = '\n') && delimFree (d :: rest)
  | _ => true

/-- Recursive characterisation of `extractFrames` (split on `"\n\n"` and
pop the trailing part), used as the vehicle for the inductive proofs; the
theorem `extractFrames_eq_efr` shows it coincides with the split-and-pop
definition taken from the source. -/
def efr : List Char → List (List Char) × List Char
  | [] => ([], [])
  | [c] => ([], [c])
  | c :: d :: rest =>
    if c = '\n' ∧ d = '\n' then (([] : List Char) :: (efr rest).1, (efr rest).2)
    else
      match efr (d :: rest) with
      | ([], b) => ([], c :: b)
      | (f :: fs, b) => ((c :: f) :: fs, b)

/-! ## Structural lemmas about the frame splitter -/

/-- Two-step structural recursion principle matching the recursion shape
of `splitNN` and `efr`. -/
theorem splitRec {P : List Char → Prop} (h0 : P []) (h1 : ∀ c, P [c])
    (h2 : ∀ c d rest, P rest → P (d :: rest) → P (c :: d :: rest)) :
    ∀ s, P s
  | [] => h0
  | [c] => h1 c
  | c :: d :: rest =>
    h2 c d rest (splitRec h0 h1 h2 rest) (splitRec h0 h1 h2 (d :: rest))

/-- `split` never returns an empty array. -/
theorem splitNN_ne_nil : ∀ s, splitNN s ≠ [] := by
  refine splitRec ?_ ?_ ?_
  · simp [splitNN]
  · intro c; simp [splitNN]
  · intro c d rest _ ih2
    by_cases h : c = '\n' ∧ d = '\n'
    · simp [splitNN, h]
    · rcases hs : splitNN (d :: rest) with _ | ⟨x, t⟩
      · exact absurd hs ih2
      · simp [splitNN, h, hs]

theorem lastD_cons_cons (a x : List Char) (l : List (List Char)) :
    lastD (a :: x :: l) = lastD (x :: l) := rfl

theorem dropLast_cons_cons (a x : List Char) (l : List (List Char)) :
    (a :: x :: l).dropLast = a :: (x :: l).dropLast := rfl

/-- The split-and-pop step of the source equals its recursive
characterisation. -/
theorem extractFrames_eq_efr : ∀ s, extractFrames s = efr s := by
  refine splitRec ?_ ?_ ?_
  · rfl
  · intro c; rfl
  · intro c d rest ih1 ih2
    by_cases h : c = '\n' ∧ d = '\n'
    · obtain ⟨hc, hd⟩ := h
      subst hc; subst hd
      rcases hQ : splitNN rest with _ | ⟨q, Q⟩
      · exact absurd hQ (splitNN_ne_nil rest)
      · have hs : splitNN ('\n' :: '\n' :: rest) = [] :: q :: Q := by
          simp [splitNN, hQ]
        have h1 : extractFrames ('\n' :: '\n' :: rest) =
            ([] :: (q :: Q).dropLast, lastD (q :: Q)) := by
          simp [extractFrames, hs, dropLast_cons_cons, lastD_cons_cons]
        have h2 : extractFrames rest = ((q :: Q).dropLast, lastD (q :: Q)) := by
          simp [extractFrames, hQ]
        rw [h1, show efr ('\n' :: '\n' :: rest) =
          ([] :: (efr rest).1, (efr rest).2) from by simp [efr]]
        rw [← ih1, h2]
    · rcases hQ : splitNN (d :: rest) with _ | ⟨q, Q⟩
      · exact absurd hQ (splitNN_ne_nil (d :: rest))
      · have hs : splitNN (c :: d :: rest) = (c :: q) :: Q := by
          simp [splitNN, h, hQ]
        rcases Q with _ | ⟨q', Q'⟩
        · -- single part: no frame, everything stays in the buffer
          have h2 : extractFrames (d :: rest) = ([], q) := by
            simp [extractFrames, hQ, lastD]
          have h3 : efr (d :: rest) = ([], q) := by rw [← ih2, h2]
          have h4 : extractFrames (c :: d :: rest) = ([], c :: q) := by
            simp [extractFrames, hs, lastD]
          rw [h4, show efr (c :: d :: rest) = ([], c :: q) from by
            simp [efr, h, h3]]
        · have h2 : extractFrames (d :: rest) =
              (q :: (q' :: Q').dropLast, lastD (q' :: Q')) := by
            simp [extractFrames, hQ, dropLast_cons_cons, lastD_cons_cons]
          have h3 : efr (d :: rest) = (q :: (q' :: Q').dropLast, lastD (q' :: Q')) := by
            rw [← ih2, h2]
          have h4 : extractFrames (c :: d :: rest) =
              ((c :: q) :: (q' :: Q').dropLast, lastD (q' :: Q')) := by
            simp [extractFrames, hs, dropLast_cons_cons, lastD_cons_cons]
          rw [h4, show efr (c :: d :: rest) =
            ((c :: q) :: (q' :: Q').dropLast, lastD (q' :: Q')) from by
            simp [efr, h, h3]]

/-- When the split yields no complete frame, the whole input stays in the
buffer. -/
theorem efr_no_frames : ∀ s, (efr s).1 = [] → (efr s).2 = s := by
  refine splitRec ?_ ?_ ?_
  · intro _; rfl
  · intro c _; rfl
  · intro c d rest _ ih2
    by_cases h : c = '\n' ∧ d = '\n'
    · intro hfs
      rw [show efr (c :: d :: rest) = ([] :: (efr rest).1, (efr rest).2) from by
        obtain ⟨hc, hd⟩ := h; subst hc; subst hd; simp [efr]] at hfs
      exact absurd hfs (by simp)
    · rcases hE : efr (d :: rest) with ⟨fs, b⟩
      rcases fs with _ | ⟨f, fs'⟩
      · intro _
        have hb : b = d :: rest := by
          have := ih2 (by rw [hE]); rw [hE] at this; exact this
        rw [show efr (c :: d :: rest) = ([], c :: b) from by simp [efr, h, hE], hb]
      · intro hfs
        rw [show efr (c :: d :: rest) = ((c :: f) :: fs', b) from by
          simp [efr, h, hE]] at hfs
        exact absurd hfs (by simp)

/-- Reassembly is a homomorphism for text concatenation: splitting
`s ++ t` yields the frames of `s`, then the frames of the leftover buffer
of `s` followed by `t`; the final buffer is that of the second step.
This is the heart of fragmentation invariance. -/
theorem efr_append : ∀ s t, efr (s ++ t) =
    ((efr s).1 ++ (efr ((efr s).2 ++ t)).1, (efr ((efr s).2 ++ t)).2) := by
  refine splitRec ?_ ?_ ?_
  · intro t; simp [efr]
  · intro c t; simp [efr]
  · intro c d rest ih1 ih2 t
    by_cases h : c = '\n' ∧ d = '\n'
    · obtain ⟨hc, hd⟩ := h; subst hc; subst hd
      have hL : ('\n' :: '\n' :: rest) ++ t = '\n' :: '\n' :: (rest ++ t) := rfl
      rw [hL]
      rw [show efr ('\n' :: '\n' :: (rest ++ t)) =
        ([] :: (efr (rest ++ t)).1, (efr (rest ++ t)).2) from by simp [efr]]
      rw [show efr ('\n' :: '\n' :: rest) =
        ([] :: (efr rest).1, (efr rest).2) from by simp [efr]]
      rw [ih1 t]
      simp
    · have hL : (c :: d :: rest) ++ t = c :: d :: (rest ++ t) := rfl
      rcases hE : efr (d :: rest) with ⟨fs, b⟩
      rcases fs with _ | ⟨f, fs'⟩
      · have hb : b = d :: rest := by
          have := efr_no_frames (d :: rest) (by rw [hE]); rw [hE] at this; exact this
        rw [show efr (c :: d :: rest) = ([], c :: b) from by simp [efr, h, hE]]
        subst hb
        simp [hL]
      · have hdt : (d :: rest) ++ t = d :: (rest ++ t) := rfl
        have ht2 := ih2 t
        rw [hdt, hE] at ht2
        rw [hL]
        rw [show efr (c :: d :: rest) = ((c :: f) :: fs', b) from by
          simp [efr, h, hE]]
        rcases hB : efr (b ++ t) with ⟨G, bg⟩
        rw [hB] at ht2
        rw [show efr (c :: d :: (rest ++ t)) =
            ((c :: f) :: (fs' ++ G), bg) from by
          simp [efr, h, ht2]]
        simp [hB]

/-- The buffer left over after reassembly contains no delimiter. -/
theorem efr_rem_delimFree : ∀ s, delimFree (efr s).2 = true := by
  refine splitRec ?_ ?_ ?_
  · rfl
  · intro c; rfl
  · intro c d rest ih1 ih2
    by_cases h : c = '\n' ∧ d = '\n'
    · rw [show efr (c :: d :: rest) = ([] :: (efr rest).1, (efr rest).2) from by
        obtain ⟨hc, hd⟩ := h; subst hc; subst hd; simp [efr]]
      exact ih1
    · rcases hE : efr (d :: rest) with ⟨fs, b⟩
      rcases fs with _ | ⟨f, fs'⟩
      · have hb : b = d :: rest := by
          have := efr_no_frames (d :: rest) (by rw [hE]); rw [hE] at this; exact this
        rw [show efr (c :: d :: rest) = ([], c :: b) from by simp [efr, h, hE]]
        subst hb
        show delimFree (c :: d :: rest) = true
        have hbd : (!(c = '\n' && d = '\n')) = true := by
          by_cases hc : c = '\n'
          · by_cases hd2 : d = '\n'
            · exact absurd ⟨hc, hd2⟩ h
            · simp [hc, hd2]
          · simp [hc]
        have := ih2; rw [hE] at this
        simp only [delimFree, hbd, Bool.true_and]
        exact this
      · rw [show efr (c :: d :: rest) = ((c :: f) :: fs', b) from by
          simp [efr, h, hE]]
        have := ih2; rw [hE] at this; exact this

/-- A delimiter-free text yields no frames: it is all buffer. -/
theorem efr_delimFree : ∀ s, delimFree s = true → efr s = ([], s) := by
  refine splitRec ?_ ?_ ?_
  · intro _; rfl
  · intro c _; rfl
  · intro c d rest _ ih2 hs
    have hd : delimFree (c :: d :: rest) =
        (!(c = '\n' && d = '\n') && delimFree (d :: rest)) := rfl
    rw [hd] at hs
    have h1 : (!(c = '\n' && d = '\n')) = true := (Bool.and_eq_true _ _ |>.mp hs).1
    have h2 : delimFree (d :: rest) = true := (Bool.and_eq_true _ _ |>.mp hs).2
    have h : ¬(c = '\n' ∧ d = '\n') := by
      intro hcd; obtain ⟨hc, hdd⟩ := hcd; subst hc; subst hdd; simp at h1
    rw [show efr (c :: d :: rest) = ([], c :: (efr (d :: rest)).2) from by
      simp [efr, h, ih2 h2]]
    rw [ih2 h2]

/-! ## Interpreter and decoder homomorphisms -/

/-- Dispatch over concatenated frame lists: if the first list hits the
sentinel, the rest is never looked at; otherwise the events concatenate. -/
theorem processFrames_append : ∀ fs1 fs2 : List (List Char),
    processFrames (fs1 ++ fs2) =
      (if (processFrames fs1).2 then processFrames fs1
       else ((processFrames fs1).1 ++ (processFrames fs2).1, (processFrames fs2).2)) := by
  intro fs1
  induction fs1 with
  | nil => intro fs2; simp [processFrames]
  | cons f fs ih =>
    intro fs2
    by_cases h1 : dataTag.isPrefixOf (trimJS f) = true
    · by_cases h2 : quotaTag.isPrefixOf (trimJS ((trimJS f).drop 5)) = true
      · simp [processFrames, h1, h2]
      · rw [Bool.not_eq_true] at h2
        have hc : processFrames ((f :: fs) ++ fs2) =
            (Ev.token (trimJS ((trimJS f).drop 5)) :: (processFrames (fs ++ fs2)).1,
             (processFrames (fs ++ fs2)).2) := by
          simp [processFrames, h1, h2]
        have hc2 : processFrames (f :: fs) =
            (Ev.token (trimJS ((trimJS f).drop 5)) :: (processFrames fs).1,
             (processFrames fs).2) := by
          simp [processFrames, h1, h2]
        rw [hc, hc2, ih fs2]
        rcases hP : processFrames fs with ⟨e, s⟩
        cases s <;> simp
    · rw [Bool.not_eq_true] at h1
      have hc : processFrames ((f :: fs) ++ fs2) = processFrames (fs ++ fs2) := by
        simp [processFrames, h1]
      have hc2 : processFrames (f :: fs) = processFrames fs := by
        simp [processFrames, h1]
      rw [hc, hc2, ih fs2]

/-- Running the decoder over concatenated chunks composes the runs. -/
theorem decRun_append (st : List Nat × List Char) (b1 b2 : List Nat) :
    decRun st (b1 ++ b2) = decRun (decRun st b1) b2 := by
  simp [decRun, List.foldl_append]

/-- The output accumulator of `decRun` factors out. -/
theorem decRun_out : ∀ (bs : List Nat) (p : List Nat) (o : List Char),
    decRun (p, o) bs = ((decRun (p, []) bs).1, o ++ (decRun (p, []) bs).2) := by
  intro bs
  induction bs with
  | nil => intro p o; simp [decRun]
  | cons b bs ih =>
    intro p o
    have h1 : decRun (p, o) (b :: bs) =
        decRun ((decStep p b).1, o ++ (decStep p b).2) bs := rfl
    have h2 : decRun (p, []) (b :: bs) =
        decRun ((decStep p b).1, (decStep p b).2) bs := by
      simp [decRun]
    rw [h1, h2, ih _ (o ++ (decStep p b).2), ih _ (decStep p b).2]
    simp

/-- Incremental decoding is a homomorphism for chunk concatenation: the
pending state threads through and the outputs concatenate.  Consequence:
a multi-byte character split across two chunks decodes exactly as when it
arrives whole. -/
theorem decodeChunk_append (p : List Nat) (b1 b2 : List Nat) :
    decodeChunk p (b1 ++ b2) =
      ((decodeChunk (decodeChunk p b1).1 b2).1,
       (decodeChunk p b1).2 ++ (decodeChunk (decodeChunk p b1).1 b2).2) := by
  unfold decodeChunk
  rw [decRun_append]
  rcases hE : decRun (p, []) b1 with ⟨p1, o1⟩
  rw [decRun_out]

/-! ## Read-loop fragmentation lemmas -/

/-- Splitting one chunk into two consecutive reads does not change the
events or the outcome of the loop. -/
theorem readLoop_split_chunk (p : List Nat) (buf : List Char) (c1 c2 : List Nat)
    (rest : List (List Nat)) (t : Option String) :
    readLoop p buf ((c1 ++ c2) :: rest) t = readLoop p buf (c1 :: c2 :: rest) t := by
  simp only [readLoop, extractFrames_eq_efr]
  rw [decodeChunk_append]
  rcases h1 : decodeChunk p c1 with ⟨p1, o1⟩
  rcases h2 : decodeChunk p1 c2 with ⟨p2, o2⟩
  simp only
  rw [show buf ++ (o1 ++ o2) = (buf ++ o1) ++ o2 from (List.append_assoc _ _ _).symm]
  rw [efr_append (buf ++ o1) o2]
  rcases hE1 : efr (buf ++ o1) with ⟨F1, b1⟩
  rcases hE2 : efr (b1 ++ o2) with ⟨F2, b2⟩
  simp only
  rw [processFrames_append]
  rcases hP1 : processFrames F1 with ⟨e1, s1⟩
  rcases hP2 : processFrames F2 with ⟨e2, s2⟩
  cases s1 <;> cases s2 <;> simp [readLoop, h2, hE2, hP2, List.append_assoc]

/-- Delivering the whole byte stream as one chunk gives the same loop
result as any chunking, provided the starting buffer holds no delimiter
(true initially and invariantly). -/
theorem readLoop_flatten : ∀ (chunks : List (List Nat)) (p : List Nat) (buf : List Char)
    (t : Option String), delimFree buf = true →
    readLoop p buf chunks t = readLoop p buf [chunks.flatten] t := by
  intro chunks
  induction chunks with
  | nil =>
    intro p buf t hb
    simp [readLoop, extractFrames_eq_efr, decodeChunk, decRun,
      efr_delimFree _ hb, processFrames, termOutcome]
  | cons c rest ih =>
    intro p buf t hb
    rw [List.flatten_cons, readLoop_split_chunk]
    simp only [readLoop, extractFrames_eq_efr]
    rcases hd : decodeChunk p c with ⟨p1, o1⟩
    rcases hE : efr (buf ++ o1) with ⟨F, b1⟩
    rcases hP : processFrames F with ⟨e, s⟩
    have hb1 : delimFree b1 = true := by
      have := efr_rem_delimFree (buf ++ o1); rw [hE] at this; exact this
    cases s <;> simp [ih p1 b1 t hb1, readLoop, extractFrames_eq_efr]

/-- Canonical form of the loop: the events are exactly the dispatch of
the complete frames of the whole decoded stream, and the outcome is the
sentinel cancellation when dispatch stopped, else the terminal event.
Text still sitting in the buffer (or bytes pending in the decoder) when
the body ends contributes nothing. -/
theorem readLoop_canonical (chunks : List (List Nat)) (t : Option String) :
    readLoop [] [] chunks t =
      ((processFrames (extractFrames (decodeChunk [] chunks.flatten).2).1).1,
       if (processFrames (extractFrames (decodeChunk [] chunks.flatten).2).1).2
       then Outcome.quotaCancelled else termOutcome t) := by
  rw [readLoop_flatten chunks [] [] t rfl]
  simp only [readLoop]
  rcases hd : decodeChunk [] chunks.flatten with ⟨p1, o1⟩
  simp only [List.nil_append]
  rcases hE : extractFrames o1 with ⟨F, b⟩
  rcases hP : processFrames F with ⟨e, s⟩
  cases s <;> simp [readLoop]

/-- If any frame of a list is the quota sentinel, dispatching the list
produces some tokens, then exactly one error — the fixed quota message —
and stops. -/
theorem processFrames_quota : ∀ fs : List (List Char),
    (∃ f ∈ fs, isQuotaFrame f = true) →
    ∃ ts, processFrames fs = (ts ++ [Ev.error quotaMsg], true) ∧
      ∀ e ∈ ts, ∃ pl, e = Ev.token pl := by
  intro fs
  induction fs with
  | nil => rintro ⟨f, hf, _⟩; exact absurd hf (List.not_mem_nil f)
  | cons f fs ih =>
    rintro ⟨g, hg, hq⟩
    by_cases h1 : dataTag.isPrefixOf (trimJS f) = true
    · by_cases h2 : quotaTag.isPrefixOf (trimJS ((trimJS f).drop 5)) = true
      · refine ⟨[], ?_, by simp⟩
        simp [processFrames, h1, h2]
      · rw [Bool.not_eq_true] at h2
        have hgfs : g ∈ fs := by
          rcases List.mem_cons.mp hg with rfl | hm
          · rw [isQuotaFrame, h1, h2] at hq; simp at hq
          · exact hm
        obtain ⟨ts, hpf, hts⟩ := ih ⟨g, hgfs, hq⟩
        refine ⟨Ev.token (trimJS ((trimJS f).drop 5)) :: ts, ?_, ?_⟩
        · simp [processFrames, h1, h2, hpf]
        · intro e he
          rcases List.mem_cons.mp he with rfl | hm
          · exact ⟨_, rfl⟩
          · exact hts e hm
    · rw [Bool.not_eq_true] at h1
      have hgfs : g ∈ fs := by
        rcases List.mem_cons.mp hg with rfl | hm
        · rw [isQuotaFrame, h1] at hq; simp at hq
        · exact hm
      obtain ⟨ts, hpf, hts⟩ := ih ⟨g, hgfs, hq⟩
      exact ⟨ts, by simp [processFrames, h1, hpf], hts⟩

/-! ## The claims -/

/-- C1: for every way of splitting the same byte stream into chunks —
including splits inside the `"\n\n"` delimiter and inside a multi-byte
UTF-8 character — `streamDraft` produces the identical callback sequence
(and the identical handle), i.e. exactly what the single-chunk delivery
produces. -/
theorem streamDraft_fragmentation_invariant (s : Nat) (t : Option String)
    (c1 c2 : List (List Nat)) (h : c1.flatten = c2.flatten) :
    streamDraft (FetchRes.ok s ⟨c1, t⟩) = streamDraft (FetchRes.ok s ⟨c2, t⟩) := by
  by_cases hs : statusOkB s = true
  · simp only [streamDraft, hs, if_true]
    rw [readLoop_flatten c1 [] [] t rfl, readLoop_flatten c2 [] [] t rfl, h]
  · rw [Bool.not_eq_true] at hs
    simp [streamDraft, hs]

/-- Witness for C1: the stream `"data: héllo\n\ndata: wörld\n\n"` cut
into three chunks, one boundary inside the two-byte `é` and one inside the
`"\n\n"` delimiter, dispatches exactly as the single-chunk delivery. -/
theorem streamDraft_fragmentation_invariant_witness :
    ([(strBytes "data: héllo\n\ndata: wörld\n\n").take 8,
      ((strBytes "data: héllo\n\ndata: wörld\n\n").drop 8).take 5,
      (strBytes "data: héllo\n\ndata: wörld\n\n").drop 13] : List (List Nat)).flatten =
      ([strBytes "data: héllo\n\ndata: wörld\n\n"] : List (List Nat)).flatten ∧
    streamDraft (FetchRes.ok 200
      ⟨[(strBytes "data: héllo\n\ndata: wörld\n\n").take 8,
        ((strBytes "data: héllo\n\ndata: wörld\n\n").drop 8).take 5,
        (strBytes "data: héllo\n\ndata: wörld\n\n").drop 13], none⟩) =
    streamDraft (FetchRes.ok 200
      ⟨[strBytes "data: héllo\n\ndata: wörld\n\n"], none⟩) :=
  ⟨by decide, streamDraft_fragmentation_invariant 200 none _ _ (by decide)⟩

/-- C2: if the stream contains a frame whose payload (after stripping
`data:` and trimming) begins with `429`, the loop dispatches only tokens
up to that frame, then the fixed quota message through the error callback
exactly once, requests cancellation of the read (`Outcome.quotaCancelled`)
and terminates, dispatching nothing for that frame or any later frame —
buffered ones included. -/
theorem readLoop_quota_stops (chunks : List (List Nat)) (t : Option String)
    (hq : ∃ f ∈ (extractFrames (decodeChunk [] chunks.flatten).2).1,
      isQuotaFrame f = true) :
    ∃ ts, readLoop [] [] chunks t = (ts ++ [Ev.error quotaMsg], Outcome.quotaCancelled) ∧
      ∀ e ∈ ts, ∃ pl, e = Ev.token pl := by
  obtain ⟨ts, hpf, hts⟩ := processFrames_quota _ hq
  refine ⟨ts, ?_, hts⟩
  rw [readLoop_canonical, hpf]
  simp

/-- Witness for C2: a stream carrying `"data: 429 slow down"` split
across two chunks, followed by a further buffered frame, dispatches the
leading token, then the single quota error, and cancels. -/
theorem readLoop_quota_stops_witness :
    (∃ f ∈ (extractFrames (decodeChunk []
        ([strBytes "data: a\n\nda", strBytes "ta: 429 slow down\n\ndata: never\n\n"]
          : List (List Nat)).flatten).2).1, isQuotaFrame f = true) ∧
    (∃ ts, readLoop [] []
        [strBytes "data: a\n\nda", strBytes "ta: 429 slow down\n\ndata: never\n\n"] none =
        (ts ++ [Ev.error quotaMsg], Outcome.quotaCancelled) ∧
      ∀ e ∈ ts, ∃ pl, e = Ev.token pl) :=
  ⟨by decide, readLoop_quota_stops _ none (by decide)⟩

/-- C3 (code evaluated at the failing input): when a read rejects while
the loop is consuming the body, the model faithfully shows NO error event
is dispatched — the loop ends in `Outcome.rejected`, the reification of
the unhandled promise rejection of the fire-and-forget `read()` call,
which the `try`/`catch` of `streamDraft` cannot observe.  The claim (and
the spec) say the error callback fires once with the failure text; the
code drops the failure instead. -/
theorem readLoop_transport_failure_silent :
    readLoop [] [] [strBytes "data: hi\n\n"] (some "network reset") =
      ([Ev.token "hi".data], Outcome.rejected "network reset") := by decide

/-- C4: a non-success initiation status yields exactly one error event
`"HTTP <status>"`, no token events, the no-op handle, and the read loop is
never entered. -/
theorem streamDraft_http_status_error (s : Nat) (body : BodyStream)
    (h : statusOkB s = false) :
    streamDraft (FetchRes.ok s body) = ([Ev.error ("HTTP " ++ toString s)], Handle.noop) := by
  simp [streamDraft, h]

/-- Witness for C4 at status 500: message is literally `"HTTP 500"`. -/
theorem streamDraft_http_status_error_witness :
    statusOkB 500 = false ∧
    streamDraft (FetchRes.ok 500 ⟨[], none⟩) = ([Ev.error "HTTP 500"], Handle.noop) := by
  refine ⟨by decide, ?_⟩
  rw [streamDraft_http_status_error 500 ⟨[], none⟩ (by decide)]
  decide

/-- C5: the literal single-chunk stream `"data: hello\n\ndata: world\n\n"`
dispatches the token `"hello"` first and the token `"world"` second, in
that order and nothing else. -/
theorem streamDraft_order_concrete :
    streamDraft (FetchRes.ok 200 ⟨[strBytes "data: hello\n\ndata: world\n\n"], none⟩) =
      ([Ev.token "hello".data, Ev.token "world".data], Handle.cancelReader) := by decide

/-- C6: a complete frame whose trimmed text does not begin with `data:`
contributes no token and no error event, and processing continues with
the subsequent frames exactly as if the frame were absent. -/
theorem processFrames_skips_non_data (f : List Char) (fs : List (List Char))
    (h : dataTag.isPrefixOf (trimJS f) = false) :
    processFrames (f :: fs) = processFrames fs := by
  simp [processFrames, h]

/-- Witness for C6: the frame `"event: ping"` is skipped. -/
theorem processFrames_skips_non_data_witness :
    dataTag.isPrefixOf (trimJS "event: ping".data) = false ∧
    processFrames ["event: ping".data, "data: x".data] = processFrames ["data: x".data] :=
  ⟨by decide, processFrames_skips_non_data _ _ (by decide)⟩

/-- C7: the events of a whole session are exactly the dispatch of the
complete (delimiter-terminated) frames of the stream: when the body ends
with text still in the accumulator — a trailing span not terminated by
`"\n\n"` (or bytes pending in the decoder) — that remainder produces no
token and no error event; it is silently dropped, never flushed. -/
theorem readLoop_drops_trailing_remainder (chunks : List (List Nat)) :
    (readLoop [] [] chunks none).1 =
      (processFrames (extractFrames (decodeChunk [] chunks.flatten).2).1).1 := by
  rw [readLoop_canonical]

/-- C8: the cancellation handle returned by `streamDraft` is idempotent —
running it twice leaves the reader exactly as running it once — and
running it after the stream closed naturally is a no-op. -/
theorem streamDraft_cancel_idempotent (res : FetchRes) (st : ReaderState) :
    runHandle (streamDraft res).2 (runHandle (streamDraft res).2 st) =
      runHandle (streamDraft res).2 st ∧
    runHandle (streamDraft res).2 ReaderState.closed = ReaderState.closed := by
  constructor
  · cases h : (streamDraft res).2 <;> cases st <;> rfl
  · cases h : (streamDraft res).2 <;> rfl

/-- C9: `streamDraft` always returns (the model is a total function, as
every path of the source resolves the promise: the `try`/`catch` swallows
initiation throws and the fire-and-forget loop cannot reject the outer
promise), and its value always carries a zero-argument handle: the no-op
handle exactly on the failure paths (rejected `fetch`, non-success
status), the `reader.cancel()` handle otherwise. -/
theorem streamDraft_always_returns_handle (res : FetchRes) :
    (streamDraft res).2 = (if initFailed res then Handle.noop else Handle.cancelReader) := by
  cases res with
  | netError m => rfl
  | ok s body =>
    by_cases h : statusOkB s = true
    · simp [streamDraft, initFailed, h]
    · rw [Bool.not_eq_true] at h
      simp [streamDraft, initFailed, h]

/-- C10: a frame that trims to exactly `data:` (so `data:` followed only
by whitespace) yields the empty payload, which is forwarded: the token
callback receives `""` and the error callback is not invoked. -/
theorem processFrames_empty_payload_token (f : List Char) (fs : List (List Char))
    (h : trimJS f = dataTag) :
    processFrames (f :: fs) =
      (Ev.token [] :: (processFrames fs).1, (processFrames fs).2) := by
  have h1 : dataTag.isPrefixOf dataTag = true := by decide
  have h2 : trimJS (dataTag.drop 5) = [] := by decide
  have h3 : quotaTag.isPrefixOf ([] : List Char) = false := by decide
  simp [processFrames, h, h1, h2, h3]

/-- Witness for C10: the frame `"data:  "` trims to `data:`, and is
forwarded as one empty token. -/
theorem processFrames_empty_payload_token_witness :
    trimJS "data:  ".data = dataTag ∧
    processFrames ["data:  ".data] =
      (Ev.token [] :: (processFrames []).1, (processFrames []).2) :=
  ⟨by decide, processFrames_empty_payload_token _ _ (by decide)⟩
